import Mathlib

/-!
Verification development for the aviation-accident preliminary-modelling
pipeline (notebook `3-preliminary-modelling.ipynb`).

The notebook is straight-line code: load four pickled tables, sparsify the
feature matrices, binarize the severity labels against the literal string
"Fatal", print a baseline from `y_test.value_counts(normalize=True)[0]`,
grid-search a logistic regression over penalty ∈ {l1, l2} and
C ∈ {0.01, 0.1, 1, 10, 100}, and display the top-30 coefficients sorted by
weight.  Each step below is embedded as a pure function over lists of
rationals; labels are lists of strings, binarized labels lists of naturals.
-/

namespace AviationModelling

/-- A pandas DataFrame of numeric features: named columns and rows of
cells.  Mirrors the pickled `X_train_tfidf` / `X_test_tfidf` objects
(cell 2 of the notebook). -/
structure DenseDF where
  cols : List String
  rows : List (List ℚ)
deriving DecidableEq

/-- Well-formedness of a loaded feature table: every row has one cell per
column. -/
def DenseDF.wf (df : DenseDF) : Prop :=
  ∀ r ∈ df.rows, r.length = df.cols.length

instance (df : DenseDF) : Decidable df.wf := by
  unfold DenseDF.wf; infer_instance

/-- Cell 4 label binarization, `(y == 'Fatal').astype('int').cm_highestinjury`:
elementwise exact (case-sensitive) string comparison with "Fatal", cast to
the integers 0/1. -/
def binarize (ys : List String) : List ℕ :=
  ys.map (fun s => if s = "Fatal" then 1 else 0)

/-- Cell 7 baseline, `y_test.value_counts(normalize=True)[0]`:
`value_counts` maps each value that occurs in the series to its relative
frequency, and the `[0]` label lookup returns the frequency of the value 0
when 0 occurs; when 0 does not occur the lookup raises a `KeyError`. -/
def baselinePrint (ys : List ℕ) : Except String ℚ :=
  if 0 ∈ ys then Except.ok ((ys.count 0 : ℚ) / (ys.length : ℚ))
  else Except.error ("KeyError: 0")

/-- The baseline as the spec words it: the proportion of the majority
label value, `max(count of 0s, count of 1s) / total rows`. -/
def majorityProp (ys : List ℕ) : ℚ :=
  (max (ys.count 0) (ys.count 1) : ℚ) / (ys.length : ℚ)

/-- The value 0 occurs in the binarized vector exactly when some original
label differs from "Fatal". -/
theorem zero_mem_binarize_iff (labels : List String) :
    0 ∈ binarize labels ↔ ∃ s ∈ labels, s ≠ "Fatal" := by
  unfold binarize
  simp only [List.mem_map]
  constructor
  · rintro ⟨s, hs, hv⟩
    refine ⟨s, hs, ?_⟩
    intro hF
    simp [hF] at hv
  · rintro ⟨s, hs, hne⟩
    exact ⟨s, hs, by simp [hne]⟩

/-- C2: the binarizer emits only 0 and 1, its count of 1s is the count of
labels exactly equal to "Fatal", it preserves length, and every label that
is not exactly "Fatal" maps to 0 at its position. -/
theorem binarize_spec (ys : List String) :
    (∀ v ∈ binarize ys, v = 0 ∨ v = 1) ∧
    (binarize ys).count 1 = ys.count ("Fatal") ∧
    (binarize ys).length = ys.length ∧
    (∀ (i : ℕ) (s : String), ys[i]? = some s → s ≠ "Fatal" →
      (binarize ys)[i]? = some 0) := by
  refine ⟨?_, ?_, by simp [binarize], ?_⟩
  · intro v hv
    rcases List.mem_map.mp hv with ⟨s, _, hv⟩
    by_cases h : s = "Fatal" <;> simp [h] at hv <;> omega
  · induction ys with
    | nil => rfl
    | cons s t ih =>
      by_cases h : s = "Fatal" <;>
        simp [binarize, List.count_cons, h] at ih ⊢ <;> omega
  · intro i s hi hne
    unfold binarize
    rw [List.getElem?_map, hi]
    simp [hne]

/-- Witness for C2 at the labels ["Fatal", "Minor"]. -/
theorem binarize_spec_witness :
    (binarize ["Fatal", "Minor"]).count 1 =
      (["Fatal", "Minor"] : List String).count ("Fatal") ∧
    (binarize ["Fatal", "Minor"])[1]? = some 0 :=
  ⟨(binarize_spec ["Fatal", "Minor"]).2.1,
   (binarize_spec ["Fatal", "Minor"]).2.2.2 1 ("Minor") (by decide) (by decide)⟩

/-- C5: when no label is exactly the string "Fatal" the binarizer returns
the all-zero vector (and returns a value rather than failing). -/
theorem binarize_all_zero_of_no_fatal (ys : List String) (h : "Fatal" ∉ ys) :
    binarize ys = List.replicate ys.length 0 := by
  refine List.eq_replicate_iff.mpr ⟨by simp [binarize], ?_⟩
  intro b hb
  rcases List.mem_map.mp hb with ⟨s, hs, hv⟩
  have : s ≠ "Fatal" := fun hF => h (hF ▸ hs)
  simpa [this] using hv.symm

/-- Witness for C5: labels differing from "Fatal" only in case give the
all-zero vector. -/
theorem binarize_all_zero_of_no_fatal_witness :
    binarize ["fatal", "Minor"] = List.replicate 2 0 :=
  binarize_all_zero_of_no_fatal ["fatal", "Minor"] (by decide)

/-- Counterexample to C1: on the test labels [1, 1, 0] the code prints the
class-0 proportion 1/3, while the majority proportion is 2/3. -/
theorem baseline_majority_counterexample :
    baselinePrint [1, 1, 0] ≠ Except.ok (majorityProp [1, 1, 0]) ∧
    baselinePrint [1, 1, 0] = Except.ok ((1 : ℚ) / 3) ∧
    majorityProp [1, 1, 0] = (2 : ℚ) / 3 := by
  refine ⟨?_, ?_, ?_⟩ <;> norm_num [baselinePrint, majorityProp]

/-- C1 (amended): whenever the value 0 occurs in the binarized test
labels, the printed baseline is the proportion of 0s, `count 0 / total`;
this agrees with the majority proportion exactly when 0 is a (weak)
majority. -/
theorem baseline_prints_zero_proportion (ys : List ℕ) (h : 0 ∈ ys) :
    baselinePrint ys = Except.ok ((ys.count 0 : ℚ) / (ys.length : ℚ)) ∧
    (ys.count 1 ≤ ys.count 0 → baselinePrint ys = Except.ok (majorityProp ys)) := by
  constructor
  · simp [baselinePrint, h]
  · intro hmaj
    unfold majorityProp
    have hmaj' : (ys.count 1 : ℚ) ≤ (ys.count 0 : ℚ) := by exact_mod_cast hmaj
    rw [max_eq_left hmaj']
    simp [baselinePrint, h]

/-- Witness for amended C1 at the test labels [0, 1]. -/
theorem baseline_prints_zero_proportion_witness :
    baselinePrint [0, 1] = Except.ok (majorityProp [0, 1]) :=
  (baseline_prints_zero_proportion [0, 1] (by decide)).2 (by decide)

/-- C10: when every test label is exactly "Fatal" the baseline lookup
raises a `KeyError` instead of printing a value, and the baseline succeeds
only when some test label is non-fatal. -/
theorem baseline_keyerror_on_all_fatal (labels : List String) :
    ((∀ s ∈ labels, s = "Fatal") →
      baselinePrint (binarize labels) = Except.error ("KeyError: 0")) ∧
    (∀ q, baselinePrint (binarize labels) = Except.ok q →
      ∃ s ∈ labels, s ≠ "Fatal") := by
  constructor
  · intro hall
    have h0 : 0 ∉ binarize labels := by
      rw [zero_mem_binarize_iff]
      rintro ⟨s, hs, hne⟩
      exact hne (hall s hs)
    simp [baselinePrint, h0]
  · intro q hq
    by_contra hno
    have h0 : 0 ∉ binarize labels := by
      rw [zero_mem_binarize_iff]; exact hno
    simp [baselinePrint, h0] at hq

/-- Witness for C10 at the all-fatal label vector ["Fatal"]. -/
theorem baseline_keyerror_on_all_fatal_witness :
    baselinePrint (binarize ["Fatal"]) = Except.error ("KeyError: 0") :=
  (baseline_keyerror_on_all_fatal ["Fatal"]).1 (by simp)

/-- A sparse coordinate-format matrix as produced by cell 3,
`astype(pd.SparseDtype("float64", 0)).sparse.to_coo()`: the shape of the
dense input plus one (row, column, value) triple per non-zero cell. -/
structure CooMatrix where
  nrows : ℕ
  ncols : ℕ
  data : List (ℕ × ℕ × ℚ)
deriving DecidableEq

/-- The cell of a dense table at (i, j), reading out-of-range positions
as 0. -/
def entryAt (df : DenseDF) (i j : ℕ) : ℚ :=
  (df.rows.getD i []).getD j 0

/-- Dense-to-sparse conversion: scan every cell, keep the non-zero ones
as (row, column, value) triples with the fill value 0 left implicit. -/
def toCoo (df : DenseDF) : CooMatrix :=
  ⟨df.rows.length, df.cols.length,
    (List.range df.rows.length).flatMap (fun i =>
      (List.range (df.rows.getD i []).length).filterMap (fun j =>
        if entryAt df i j = 0 then none else some (i, j, entryAt df i j)))⟩

/-- Reading a sparse coordinate matrix at (i, j): the value of the first
recorded triple with these coordinates, or the fill value 0 when no
triple is recorded there. -/
def cooLookup (m : CooMatrix) (i j : ℕ) : ℚ :=
  match m.data.find? (fun e => e.1 == i && e.2.1 == j) with
  | some e => e.2.2
  | none => 0

/-- Densification of a sparse coordinate matrix back into rows of
cells. -/
def densify (m : CooMatrix) : List (List ℚ) :=
  (List.range m.nrows).map (fun i =>
    (List.range m.ncols).map (fun j => cooLookup m i j))

/-- Characterization of the triples recorded by `toCoo`: exactly the
in-range positions holding a non-zero cell, each with its original
value. -/
theorem mem_toCoo_iff (df : DenseDF) (i j : ℕ) (v : ℚ) :
    (i, j, v) ∈ (toCoo df).data ↔
      i < df.rows.length ∧ j < (df.rows.getD i []).length ∧
      v = entryAt df i j ∧ entryAt df i j ≠ 0 := by
  unfold toCoo
  simp only [List.mem_flatMap, List.mem_filterMap, List.mem_range]
  constructor
  · rintro ⟨a, ha, b, hb, he⟩
    by_cases h0 : entryAt df a b = 0
    · simp [h0] at he
    · simp only [h0, if_false, Option.some.injEq, Prod.mk.injEq] at he
      obtain ⟨rfl, rfl, rfl⟩ := he
      exact ⟨ha, hb, rfl, h0⟩
  · rintro ⟨hi, hj, rfl, h0⟩
    exact ⟨i, hi, j, hj, by simp [h0]⟩

/-- Looking an in-range position up in the sparse form recovers the dense
cell. -/
theorem cooLookup_toCoo (df : DenseDF) (i j : ℕ)
    (hi : i < df.rows.length) (hj : j < (df.rows.getD i []).length) :
    cooLookup (toCoo df) i j = entryAt df i j := by
  unfold cooLookup
  cases hfind : (toCoo df).data.find? (fun e => e.1 == i && e.2.1 == j) with
  | some e =>
    obtain ⟨a, b, w⟩ := e
    have hmem := List.mem_of_find?_eq_some hfind
    have hpred := List.find?_some hfind
    simp only [beq_iff_eq, Bool.and_eq_true, decide_eq_true_eq] at hpred
    obtain ⟨rfl, rfl⟩ := hpred
    exact ((mem_toCoo_iff df a b w).mp hmem).2.2.1
  | none =>
    by_cases h0 : entryAt df i j = 0
    · exact h0.symm
    · exfalso
      have hmem : (i, j, entryAt df i j) ∈ (toCoo df).data :=
        (mem_toCoo_iff df i j (entryAt df i j)).mpr ⟨hi, hj, rfl, h0⟩
      have := List.find?_eq_none.mp hfind _ hmem
      simp at this

/-- Rows read through `getD` agree with indexed access in range. -/
theorem rowsGetD_eq (df : DenseDF) (i : ℕ) (hi : i < df.rows.length) :
    df.rows.getD i [] = df.rows[i] := by
  simp [List.getD_eq_getElem?_getD, List.getElem?_eq_getElem hi]

/-- Cells read through `entryAt` agree with indexed access in range. -/
theorem entryAt_eq (df : DenseDF) (i j : ℕ) (hi : i < df.rows.length)
    (hj : j < df.rows[i].length) :
    entryAt df i j = df.rows[i][j] := by
  unfold entryAt
  rw [rowsGetD_eq df i hi]
  simp [List.getD_eq_getElem?_getD, List.getElem?_eq_getElem hj]

/-- C3: the dense-to-sparse conversion is value- and shape-preserving:
the sparse form records the dense shape, every recorded triple carries a
non-zero cell at its original row/column position, and densifying the
sparse form yields back exactly the original rows. -/
theorem sparsify_roundtrip (df : DenseDF) (hwf : df.wf) :
    densify (toCoo df) = df.rows ∧
    (toCoo df).nrows = df.rows.length ∧
    (toCoo df).ncols = df.cols.length ∧
    (∀ (i j : ℕ) (v : ℚ), (i, j, v) ∈ (toCoo df).data →
      v = entryAt df i j ∧ v ≠ 0) := by
  refine ⟨?_, rfl, rfl, ?_⟩
  · unfold densify
    apply List.ext_getElem
    · simp [toCoo]
    · intro i h1 h2
      simp only [List.getElem_map, List.getElem_range]
      have hrow : df.rows[i].length = df.cols.length :=
        hwf df.rows[i] (List.getElem_mem h2)
      have hgd : df.rows.getD i [] = df.rows[i] := rowsGetD_eq df i h2
      apply List.ext_getElem
      · simp [toCoo, hrow]
      · intro j g1 g2
        simp only [List.getElem_map, List.getElem_range]
        have hj : j < (df.rows.getD i []).length := by
          rw [hgd, hrow]
          simpa [toCoo] using g1
        rw [cooLookup_toCoo df i j h2 hj]
        exact entryAt_eq df i j h2 g2
  · intro i j v hmem
    have h := (mem_toCoo_iff df i j v).mp hmem
    exact ⟨h.2.2.1, h.2.2.1 ▸ h.2.2.2⟩

/-- Witness for C3 on a concrete 2-by-2 table with fill zeros. -/
theorem sparsify_roundtrip_witness :
    densify (toCoo ⟨["a", "b"], [[1, 0], [0, 2]]⟩) = [[1, 0], [0, 2]] :=
  (sparsify_roundtrip ⟨["a", "b"], [[1, 0], [0, 2]]⟩ (by decide)).1

/-- Ascending comparison on (original column position, weight) pairs: by
weight, with the position breaking ties.  On the distinct-position pairs
of an enumerated weight column this is exactly the order a stable
ascending argsort of the weights produces. -/
def ascWeight (p q : ℕ × ℚ) : Prop :=
  p.2 < q.2 ∨ (p.2 = q.2 ∧ p.1 ≤ q.1)

instance : DecidableRel ascWeight := fun p q => by
  unfold ascWeight; infer_instance

instance : IsTrans (ℕ × ℚ) ascWeight := by
  constructor
  rintro a b c (h1 | ⟨h1, h2⟩) (h3 | ⟨h3, h4⟩)
  · exact Or.inl (h1.trans h3)
  · exact Or.inl (h1.trans_eq h3)
  · exact Or.inl (h1.trans_lt h3)
  · exact Or.inr ⟨h1.trans h3, h2.trans h4⟩

instance : IsTotal (ℕ × ℚ) ascWeight := by
  constructor
  intro a b
  rcases lt_trichotomy a.2 b.2 with h | h | h
  · exact Or.inl (Or.inl h)
  · rcases le_total a.1 b.1 with h2 | h2
    · exact Or.inl (Or.inr ⟨h, h2⟩)
    · exact Or.inr (Or.inr ⟨h.symm, h2⟩)
  · exact Or.inr (Or.inl h)

/-- Cell 11 table ordering, `sort_values('Weight', ascending=False)`:
pandas argsorts the weight column ascending and reverses the resulting
order (`nargsort` applies `indexer[::-1]` when `ascending` is false), so
the table comes out descending by weight with ties reversed. -/
def sortValuesDesc (w : List ℚ) : List (ℕ × ℚ) :=
  (List.insertionSort ascWeight w.enum).reverse

/-- Cell 11 display, `.head(30)`: the first 30 rows of the sorted table,
each row pairing an original column position with its weight. -/
def inspectTop (w : List ℚ) : List (ℕ × ℚ) :=
  (sortValuesDesc w).take 30

/-- The ordering the spec asks of the weight inspector, stated from the
spec words: descending by weight with ties kept in original column
order. -/
def specDescWeight (p q : ℕ × ℚ) : Prop :=
  q.2 < p.2 ∨ (p.2 = q.2 ∧ p.1 ≤ q.1)

instance : DecidableRel specDescWeight := fun p q => by
  unfold specDescWeight; infer_instance

/-- The weight-inspection output as the spec words it: top 30 by
descending weight, equal weights kept in original column order. -/
def specInspectTop (w : List ℚ) : List (ℕ × ℚ) :=
  (List.insertionSort specDescWeight w.enum).take 30

/-- Counterexample to C4: on the weight vector [5, 5, 3] the code lists
the two tied columns as position 1 before position 0 — the reverse of
their original column order — while the spec ordering keeps 0 before
1. -/
theorem inspect_stability_counterexample :
    inspectTop [5, 5, 3] = [(1, 5), (0, 5), (2, 3)] ∧
    specInspectTop [5, 5, 3] = [(0, 5), (1, 5), (2, 3)] ∧
    inspectTop [5, 5, 3] ≠ specInspectTop [5, 5, 3] := by
  decide

/-- The enumerated weight column carries pairwise-distinct positions. -/
theorem enum_fst_pairwise_ne (w : List ℚ) :
    List.Pairwise (fun p q : ℕ × ℚ => p.1 ≠ q.1) w.enum := by
  have h1 : (w.enum.map Prod.fst).Nodup := by
    rw [List.enum_map_fst]; exact List.nodup_range _
  exact List.pairwise_map.mp h1

/-- C4 (amended): the inspection output is the first min(30, n) rows of a
permutation of the full (column position, weight) table, sorted
descending by weight; equal weights appear in the *reverse* of their
original column order; every displayed weight is the weight of the
displayed column; and no undisplayed row has a larger weight than a
displayed one. -/
theorem inspect_top30_amended (w : List ℚ) :
    (inspectTop w).length = min 30 w.length ∧
    List.Perm (sortValuesDesc w) w.enum ∧
    List.Pairwise
      (fun p q : ℕ × ℚ => q.2 < p.2 ∨ (q.2 = p.2 ∧ q.1 < p.1)) (inspectTop w) ∧
    (∀ p ∈ inspectTop w, w[p.1]? = some p.2) ∧
    (∀ p ∈ inspectTop w, ∀ q ∈ (sortValuesDesc w).drop 30, q.2 ≤ p.2) := by
  have hperm : List.Perm (List.insertionSort ascWeight w.enum) w.enum :=
    List.perm_insertionSort ascWeight w.enum
  have hpermRev : List.Perm (sortValuesDesc w) w.enum :=
    (List.reverse_perm _).trans hperm
  have hasc : List.Pairwise ascWeight (List.insertionSort ascWeight w.enum) :=
    List.sorted_insertionSort ascWeight w.enum
  refine ⟨?_, hpermRev, ?_, ?_, ?_⟩
  · rw [inspectTop, List.length_take, hpermRev.length_eq, List.enum_length]
  · have hne : List.Pairwise (fun p q : ℕ × ℚ => p.1 ≠ q.1)
        (List.insertionSort ascWeight w.enum) :=
      (hperm.pairwise_iff (fun h => h.symm)).mpr (enum_fst_pairwise_ne w)
    have hstrict : List.Pairwise
        (fun p q : ℕ × ℚ => p.2 < q.2 ∨ (p.2 = q.2 ∧ p.1 < q.1))
        (List.insertionSort ascWeight w.enum) := by
      refine (hasc.and hne).imp ?_
      rintro a b ⟨h1 | ⟨h1, h2⟩, hne1⟩
      · exact Or.inl h1
      · exact Or.inr ⟨h1, lt_of_le_of_ne h2 hne1⟩
    have hrev : List.Pairwise
        (fun p q : ℕ × ℚ => q.2 < p.2 ∨ (q.2 = p.2 ∧ q.1 < p.1))
        (sortValuesDesc w) := by
      rw [sortValuesDesc, List.pairwise_reverse]
      exact hstrict.imp (fun h => by tauto)
    exact hrev.sublist (List.take_sublist 30 _)
  · intro p hp
    have hmem : p ∈ w.enum :=
      hpermRev.mem_iff.mp ((List.take_sublist 30 _).mem hp)
    exact List.mem_enum_iff_getElem?.mp hmem
  · intro p hp q hq
    have hsortedRev : List.Sorted (fun p q : ℕ × ℚ => ascWeight q p)
        (sortValuesDesc w) := by
      rw [sortValuesDesc, List.Sorted, List.pairwise_reverse]
      exact hasc
    have hrel := hsortedRev.rel_of_mem_take_of_mem_drop hp hq
    rcases hrel with h | ⟨h, _⟩
    · exact h.le
    · exact h.le

/-- Witness for amended C4 at the weight vector [5, 5, 3]. -/
theorem inspect_top30_amended_witness :
    (inspectTop [5, 5, 3]).length = min 30 3 ∧
    ([5, 5, 3] : List ℚ)[1]? = some 5 :=
  ⟨(inspect_top30_amended [5, 5, 3]).1,
    (inspect_top30_amended [5, 5, 3]).2.2.2.1 (1, 5) (by decide)⟩

/-- A hyperparameter configuration of the sweep in cell 8: a penalty name
and a regularization strength C. -/
def Cfg : Type := String × ℚ

instance : DecidableEq Cfg := by
  unfold Cfg; infer_instance

/-- The penalty values of `logreg_params`. -/
def penaltyValues : List String := ["l1", "l2"]

/-- The regularization strengths of `logreg_params`. -/
def strengthValues : List ℚ := [1 / 100, 1 / 10, 1, 10, 100]

/-- The full parameter grid swept by `GridSearchCV`: every combination of
a penalty value with a strength value. -/
def logregGrid : List Cfg :=
  penaltyValues.flatMap (fun p => strengthValues.map (fun c => (p, c)))

/-- Selection of the best grid point: the configuration with the highest
mean cross-validated score, taking the earliest on ties (`GridSearchCV`
keeps the first configuration of minimal rank). -/
def selectBest (score : Cfg → ℚ) : List Cfg → Option Cfg
  | [] => none
  | c :: cs => some (cs.foldl (fun b x => if score b < score x then x else b) c)

/-- A fitted-and-evaluated grid-search outcome: the selected
configuration, the coefficient row and intercept of the refit on the full
training set, and the reported train and test accuracy. -/
structure FitResult where
  best : Cfg
  coef : List ℚ
  intercept : ℚ
  trainAcc : ℚ
  testAcc : ℚ

/-- The decision of a fitted logistic regression on one feature row:
predict 1 exactly when the linear score is positive (`predict` thresholds
the decision function at 0). -/
def predictRow (coef : List ℚ) (intercept : ℚ) (x : List ℚ) : ℕ :=
  if 0 < (List.zipWith (fun a b => a * b) coef x).sum + intercept then 1 else 0

/-- Accuracy of a fitted model on a labelled table: the fraction of rows
whose prediction equals the label. -/
def accuracyOf (coef : List ℚ) (intercept : ℚ) (X : DenseDF) (y : List ℕ) : ℚ :=
  (((X.rows.zip y).countP
      (fun rl => predictRow coef intercept rl.1 == rl.2) : ℚ)) / (y.length : ℚ)

/-- The number of members of the smallest class of a binary label vector,
which `StratifiedKFold` compares against its fold count. -/
def minClassCount (y : List ℕ) : ℕ :=
  min (y.count 0) (y.count 1)

/-- Cell 8 model selection,
`GridSearchCV(LogisticRegression(solver='liblinear'), logreg_params).fit`
followed by the two `score` calls: the default 5-fold stratified
cross-validation first checks that the fold count is at least 2 and at
most the size of the smallest class and raises otherwise; the best
configuration is then the grid point of highest mean cross-validated
score (abstracted here as `score`), refit on the full training set by the
solver (abstracted here as `solve`, returning a coefficient row and an
intercept), and train and test accuracy are computed from that refit
model. -/
def gridFitCV (cv : ℕ) (Xtr : DenseDF) (ytr : List ℕ) (Xte : DenseDF)
    (yte : List ℕ) (grid : List Cfg) (score : Cfg → ℚ)
    (solve : Cfg → DenseDF → List ℕ → List ℚ × ℚ) : Except String FitResult :=
  if cv < 2 then Except.error ("n_splits must be at least 2")
  else if minClassCount ytr < cv then
    Except.error ("n_splits cannot be greater than the number of members in each class")
  else
    match selectBest score grid with
    | none => Except.error ("empty parameter grid")
    | some b =>
      Except.ok ⟨b, (solve b Xtr ytr).1, (solve b Xtr ytr).2,
        accuracyOf (solve b Xtr ytr).1 (solve b Xtr ytr).2 Xtr ytr,
        accuracyOf (solve b Xtr ytr).1 (solve b Xtr ytr).2 Xte yte⟩

/-- The running best of the selection fold is one of the candidates and
scores at least as high as every candidate. -/
theorem foldl_best_mem_le (score : Cfg → ℚ) (c : Cfg) (cs : List Cfg) :
    cs.foldl (fun b x => if score b < score x then x else b) c ∈ c :: cs ∧
    ∀ e ∈ c :: cs,
      score e ≤ score (cs.foldl (fun b x => if score b < score x then x else b) c) := by
  induction cs generalizing c with
  | nil => simp
  | cons d ds ih =>
    simp only [List.foldl_cons]
    by_cases hcd : score c < score d
    · simp only [if_pos hcd]
      obtain ⟨hmem, hle⟩ := ih d
      constructor
      · exact List.mem_cons.mpr (Or.inr hmem)
      · intro e he
        rcases List.mem_cons.mp he with rfl | he2
        · exact le_trans hcd.le (hle d (List.mem_cons_self d ds))
        · exact hle e he2
    · simp only [if_neg hcd]
      obtain ⟨hmem, hle⟩ := ih c
      constructor
      · rcases List.mem_cons.mp hmem with h1 | h1
        · exact List.mem_cons.mpr (Or.inl h1)
        · exact List.mem_cons.mpr (Or.inr (List.mem_cons.mpr (Or.inr h1)))
      · intro e he
        rcases List.mem_cons.mp he with rfl | he2
        · exact hle _ (List.mem_cons_self _ _)
        · rcases List.mem_cons.mp he2 with rfl | he3
          · exact le_trans (not_lt.mp hcd) (hle c (List.mem_cons_self c ds))
          · exact hle e (List.mem_cons_of_mem c he3)

/-- The selected configuration is a grid point and scores at least as
high as every grid point. -/
theorem selectBest_max (score : Cfg → ℚ) (l : List Cfg) (b : Cfg)
    (hb : selectBest score l = some b) :
    b ∈ l ∧ ∀ c ∈ l, score c ≤ score b := by
  match l with
  | [] => simp [selectBest] at hb
  | c :: cs =>
    simp only [selectBest, Option.some.injEq] at hb
    subst hb
    exact foldl_best_mem_le score c cs

/-- Membership in the swept grid is exactly membership of the penalty and
strength in their enumerated value lists. -/
theorem mem_logregGrid (p : String) (c : ℚ) :
    (p, c) ∈ logregGrid ↔ p ∈ penaltyValues ∧ c ∈ strengthValues := by
  unfold logregGrid
  simp only [List.mem_flatMap, List.mem_map, Prod.mk.injEq]
  constructor
  · rintro ⟨a, ha, b, hb, rfl, rfl⟩
    exact ⟨ha, hb⟩
  · rintro ⟨hp, hc⟩
    exact ⟨p, hp, c, hc, rfl, rfl⟩

/-- C6: the sweep covers the full 2-by-5 grid {l1, l2} x
{0.01, 0.1, 1, 10, 100} of 10 configurations of positive strength; when
the 5-fold stratified split is admissible for the training labels the fit
succeeds, the selected configuration belongs to the grid and has maximal
mean cross-validated score, and the reported accuracies are those of the
refit of that configuration on the full training set. -/
theorem gridSearch_selects_max (Xtr Xte : DenseDF) (ytr yte : List ℕ)
    (score : Cfg → ℚ) (solve : Cfg → DenseDF → List ℕ → List ℚ × ℚ)
    (hcv : 5 ≤ minClassCount ytr) :
    logregGrid.length = 10 ∧
    (∀ (p : String) (c : ℚ),
      (p, c) ∈ logregGrid ↔ p ∈ penaltyValues ∧ c ∈ strengthValues) ∧
    (∀ g ∈ logregGrid, 0 < g.2) ∧
    ∃ r : FitResult,
      gridFitCV 5 Xtr ytr Xte yte logregGrid score solve = Except.ok r ∧
      r.best ∈ logregGrid ∧
      (∀ c ∈ logregGrid, score c ≤ score r.best) ∧
      r.coef = (solve r.best Xtr ytr).1 ∧
      r.trainAcc = accuracyOf r.coef r.intercept Xtr ytr ∧
      r.testAcc = accuracyOf r.coef r.intercept Xte yte := by
  have hpos : ∀ c ∈ strengthValues, 0 < c := by
    intro c hc
    simp only [strengthValues, List.mem_cons, List.not_mem_nil, or_false] at hc
    rcases hc with rfl | rfl | rfl | rfl | rfl <;> norm_num
  refine ⟨by rfl, mem_logregGrid, ?_, ?_⟩
  · intro g hg
    have hg2 : (g.1, g.2) ∈ logregGrid := by simpa using hg
    exact hpos g.2 ((mem_logregGrid g.1 g.2).mp hg2).2
  have hsel : ∃ b, selectBest score logregGrid = some b := by
    simp [selectBest, logregGrid, penaltyValues, strengthValues]
  obtain ⟨b, hb⟩ := hsel
  have hmax := selectBest_max score logregGrid b hb
  refine ⟨⟨b, (solve b Xtr ytr).1, (solve b Xtr ytr).2,
    accuracyOf (solve b Xtr ytr).1 (solve b Xtr ytr).2 Xtr ytr,
    accuracyOf (solve b Xtr ytr).1 (solve b Xtr ytr).2 Xte yte⟩, ?_, hmax.1,
    hmax.2, rfl, rfl, rfl⟩
  unfold gridFitCV
  rw [if_neg (by omega), if_neg (by omega), hb]

/-- Witness for C6 on concrete inputs with five members in each class. -/
theorem gridSearch_selects_max_witness :
    logregGrid.length = 10 ∧
    ∃ r : FitResult,
      gridFitCV 5 ⟨[], []⟩ [0, 0, 0, 0, 0, 1, 1, 1, 1, 1] ⟨[], []⟩ []
        logregGrid (fun _ => 0) (fun _ _ _ => ([], 0)) = Except.ok r ∧
      r.best ∈ logregGrid :=
  ⟨(gridSearch_selects_max ⟨[], []⟩ ⟨[], []⟩ [0, 0, 0, 0, 0, 1, 1, 1, 1, 1] []
      (fun _ => 0) (fun _ _ _ => ([], 0)) (by decide)).1,
    by
      obtain ⟨r, hr, hmem, _⟩ :=
        (gridSearch_selects_max ⟨[], []⟩ ⟨[], []⟩ [0, 0, 0, 0, 0, 1, 1, 1, 1, 1]
          [] (fun _ => 0) (fun _ _ _ => ([], 0)) (by decide)).2.2.2
      exact ⟨r, hr, hmem⟩⟩

/-- The reported accuracy is never negative. -/
theorem accuracyOf_nonneg (coef : List ℚ) (b : ℚ) (X : DenseDF) (y : List ℕ) :
    0 ≤ accuracyOf coef b X y := by
  unfold accuracyOf
  exact div_nonneg (Nat.cast_nonneg _) (Nat.cast_nonneg _)

/-- The reported accuracy never exceeds 1. -/
theorem accuracyOf_le_one (coef : List ℚ) (b : ℚ) (X : DenseDF) (y : List ℕ) :
    accuracyOf coef b X y ≤ 1 := by
  unfold accuracyOf
  rcases Nat.eq_zero_or_pos y.length with h | h
  · rw [h]; simp
  · rw [div_le_one (by exact_mod_cast h)]
    have hc : (X.rows.zip y).countP
        (fun rl => predictRow coef b rl.1 == rl.2) ≤ (X.rows.zip y).length :=
      List.countP_le_length _
    have hz : (X.rows.zip y).length ≤ y.length := by
      rw [List.length_zip]; exact min_le_right _ _
    exact_mod_cast le_trans hc hz

/-- The 4-row toy feature table of the end-to-end scenario, with 3
vocabulary columns. -/
def toyX : DenseDF :=
  ⟨["a", "b", "c"], [[1, 0, 0], [0, 1, 0], [0, 0, 1], [1, 1, 0]]⟩

/-- The toy severity labels of the end-to-end scenario. -/
def toyLabels : List String := ["Fatal", "Minor", "Fatal", "Minor"]

/-- Counterexample to C8: binarizing the toy labels does yield
[1, 0, 1, 0] and the baseline is 1/2, but fitting the single
configuration (l2, C = 1) through the notebook's grid search on the
4-row toy set does not converge to a fitted model: the default 5-fold
stratified split raises because each class has only 2 members. -/
theorem toy_scenario_counterexample :
    binarize toyLabels = [1, 0, 1, 0] ∧
    baselinePrint (binarize toyLabels) = Except.ok ((1 : ℚ) / 2) ∧
    gridFitCV 5 toyX (binarize toyLabels) toyX (binarize toyLabels)
      [("l2", 1)] (fun _ => 0) (fun _ _ _ => ([0, 0, 0], 0)) =
      Except.error
        ("n_splits cannot be greater than the number of members in each class") := by
  have hbin : binarize toyLabels = [1, 0, 1, 0] := by decide
  refine ⟨hbin, ?_, ?_⟩
  · rw [hbin]; norm_num [baselinePrint]
  · unfold gridFitCV
    rw [if_neg (by norm_num), if_pos (by rw [hbin]; decide)]

/-- C8 (amended): the toy binarization and baseline hold as stated; the
grid fit of the single configuration (l2, C = 1) succeeds only once the
cross-validation fold count is admissible for the 2-member classes —
with 2 folds it returns the refit model, whose weight vector has one
weight per toy vocabulary column (length 3) and whose reported training
accuracy lies in [0, 1]. -/
theorem toy_scenario_amended (score : Cfg → ℚ)
    (solve : Cfg → DenseDF → List ℕ → List ℚ × ℚ)
    (hlen : (solve ("l2", 1) toyX (binarize toyLabels)).1.length =
      toyX.cols.length) :
    binarize toyLabels = [1, 0, 1, 0] ∧
    baselinePrint (binarize toyLabels) = Except.ok ((1 : ℚ) / 2) ∧
    ∃ r : FitResult,
      gridFitCV 2 toyX (binarize toyLabels) toyX (binarize toyLabels)
        [("l2", 1)] score solve = Except.ok r ∧
      r.best = ("l2", 1) ∧
      r.coef.length = 3 ∧
      r.trainAcc = accuracyOf r.coef r.intercept toyX (binarize toyLabels) ∧
      0 ≤ r.trainAcc ∧ r.trainAcc ≤ 1 := by
  have hbin : binarize toyLabels = [1, 0, 1, 0] := by decide
  refine ⟨hbin, by rw [hbin]; norm_num [baselinePrint], ?_⟩
  refine ⟨⟨("l2", 1), (solve ("l2", 1) toyX (binarize toyLabels)).1,
    (solve ("l2", 1) toyX (binarize toyLabels)).2,
    accuracyOf (solve ("l2", 1) toyX (binarize toyLabels)).1
      (solve ("l2", 1) toyX (binarize toyLabels)).2 toyX (binarize toyLabels),
    accuracyOf (solve ("l2", 1) toyX (binarize toyLabels)).1
      (solve ("l2", 1) toyX (binarize toyLabels)).2 toyX (binarize toyLabels)⟩,
    ?_, rfl, by simpa using hlen, rfl, accuracyOf_nonneg _ _ _ _,
    accuracyOf_le_one _ _ _ _⟩
  unfold gridFitCV
  rw [if_neg (by norm_num), if_neg (by rw [hbin]; decide)]
  rfl

/-- Witness for amended C8 with a concrete solver returning the zero
model. -/
theorem toy_scenario_amended_witness :
    ∃ r : FitResult,
      gridFitCV 2 toyX (binarize toyLabels) toyX (binarize toyLabels)
        [("l2", 1)] (fun _ => 0) (fun _ _ _ => ([0, 0, 0], 0)) =
        Except.ok r ∧
      r.best = ("l2", 1) ∧ r.coef.length = 3 := by
  obtain ⟨hb, hbase, r, hr, hbest, hlen3, _⟩ :=
    toy_scenario_amended (fun _ => 0) (fun _ _ _ => ([0, 0, 0], 0)) (by decide)
  exact ⟨r, hr, hbest, hlen3⟩

/-- The notebook's sequential state: the four loaded artifacts plus the
derived artifacts the later cells assign.  The loaded feature tables are
fields distinct from everything the later cells write. -/
structure NBState where
  X_train_tfidf : DenseDF
  X_test_tfidf : DenseDF
  y_train_df : List String
  y_test_df : List String
  X_train_sparse : Option CooMatrix
  X_test_sparse : Option CooMatrix
  y_train : Option (List ℕ)
  y_test : Option (List ℕ)

/-- Cell 3: assign the sparse conversions of both feature tables to the
two new sparse variables; nothing else is written. -/
def cellSparsify (s : NBState) : NBState :=
  ⟨s.X_train_tfidf, s.X_test_tfidf, s.y_train_df, s.y_test_df,
    some (toCoo s.X_train_tfidf), some (toCoo s.X_test_tfidf),
    s.y_train, s.y_test⟩

/-- Cell 4: rebind both label vectors to their binarized forms; nothing
else is written. -/
def cellBinarize (s : NBState) : NBState :=
  ⟨s.X_train_tfidf, s.X_test_tfidf, s.y_train_df, s.y_test_df,
    s.X_train_sparse, s.X_test_sparse,
    some (binarize s.y_train_df), some (binarize s.y_test_df)⟩

/-- Cell 11 labelling, `pd.DataFrame(..., index = X_train_tfidf.columns)`:
the column names the weight inspector attaches to the fitted
coefficients. -/
def inspectorIndex (s : NBState) : List String :=
  s.X_train_tfidf.cols

/-- C9: running the sparsify and binarize cells leaves both loaded dense
feature tables exactly as loaded — the sparsify step only writes the two
new sparse objects — so the column names and their order the weight
inspector later reads off `X_train_tfidf` are those of the loaded
table. -/
theorem loaded_tables_not_mutated (s : NBState) :
    (cellBinarize (cellSparsify s)).X_train_tfidf = s.X_train_tfidf ∧
    (cellBinarize (cellSparsify s)).X_test_tfidf = s.X_test_tfidf ∧
    (cellBinarize (cellSparsify s)).X_train_sparse =
      some (toCoo s.X_train_tfidf) ∧
    (cellBinarize (cellSparsify s)).X_test_sparse =
      some (toCoo s.X_test_tfidf) ∧
    inspectorIndex (cellBinarize (cellSparsify s)) = s.X_train_tfidf.cols :=
  ⟨rfl, rfl, rfl, rfl, rfl⟩

end AviationModelling
